import Mathlib

/-!
# Verification of the `bestls` listing pipeline

A shallow embedding of the `bestls` directory-listing tool (sources:
`src/fsops.rs`, `src/main.rs`, `src/cli.rs`, `src/table.rs`) together with
theorems about its traversal, filter, parsing and sorting behaviour.

Machine integers (`u64`, `usize`) are modelled as `Nat` with explicit
saturation bounds where the source saturates.  Strings are modelled through
their character lists; Rust's byte-wise ordering on UTF-8 strings coincides
with the code-point ordering used here on all valid strings.  Filesystem
state is modelled as an explicit tree value (`FsNode`); syscall failures
(`read_dir`, `metadata`) are the `none`/`error` cases of that tree.
-/

/-! ## String primitives

Rust string operations used by the sources, implemented over the character
list of the string so that all of them are kernel-computable.  The inputs
relevant to this program are ASCII; for `to_uppercase`/`to_lowercase` the
ASCII fragment of Rust's Unicode mapping is modelled. -/

/-- Model of Rust `str::starts_with('.')`: true iff the first character is `'.'`. -/
def startsWithDot (s : String) : Bool :=
  match s.data with
  | [] => false
  | c :: _ => c == '.'

/-- Model of Rust `str::trim` (whitespace removed from both ends). -/
def rustTrim (s : String) : String :=
  String.mk (((s.data.dropWhile Char.isWhitespace).reverse.dropWhile Char.isWhitespace).reverse)

/-- Model of Rust `str::to_uppercase` (ASCII fragment). -/
def rustToUpper (s : String) : String :=
  String.mk (s.data.map Char.toUpper)

/-- Model of Rust `str::to_lowercase` (ASCII fragment). -/
def rustToLower (s : String) : String :=
  String.mk (s.data.map Char.toLower)

/-- Split a character list at every occurrence of `sep` (Rust `str::split(char)`):
an empty input yields `[[]]`, and separators at the ends yield empty groups. -/
def splitChar (sep : Char) : List Char → List (List Char)
  | [] => [[]]
  | c :: rest =>
    match splitChar sep rest with
    | [] => [[c]]
    | g :: gs => if c == sep then [] :: g :: gs else (c :: g) :: gs

/-- Model of Rust `str::split(char)` collected into a list of strings. -/
def rustSplit (sep : Char) (s : String) : List String :=
  (splitChar sep s.data).map String.mk

/-- Model of Rust `str::ends_with(&str)`. -/
def endsWithStr (s post : String) : Bool :=
  post.data.isSuffixOf s.data

/-- Model of Rust `str::trim_start_matches('.')`: removes every leading `'.'`. -/
def stripLeadingDots (s : String) : String :=
  String.mk (s.data.dropWhile (· == '.'))

/-- Removal of at most one leading dot.  This is the reading of the
specification's words "stripping a leading dot", kept separate from
`stripLeadingDots` (the source behaviour) so the two can be compared. -/
def stripOneLeadingDot (s : String) : String :=
  match s.data with
  | '.' :: rest => String.mk rest
  | _ => s

/-! ## Data model (`src/fsops.rs`) -/

/-- `FileType` from `fsops.rs`: the kind of a directory entry. -/
inductive FileType where
  | File
  | Directory
  | Symlink
deriving DecidableEq, Repr

/-- `FileEntry` from `fsops.rs`: the per-entry record produced by the
metadata extractor and consumed by filters, sorter and renderers. -/
structure FileEntry where
  name : String
  e_type : FileType
  len_bytes : Nat
  human_size : String
  modified : String
  permissions : String
  owner : String
  group : String
deriving DecidableEq, Repr

/-- The environment-supplied metadata of one filesystem object, as observed
by a successful `entry.metadata()` call: length, the already-formatted
modification string (chrono formatting of the `SystemTime`, empty when the
time is unavailable), the Unix mode bits, and the owner/group names as
resolved by the user database (numeric fallback already applied). -/
structure NodeMeta where
  len_bytes : Nat
  modifiedStr : String
  mode : Nat
  owner : String
  group : String
deriving DecidableEq, Repr

/-- The filesystem as an explicit tree.  A `file` node is any non-directory
object (its `kind` is `File` or `Symlink`); a `dir` node carries the outcome
of reading it: `none` models a failing `read_dir`, `some entries` a
successful enumeration.  A `meta` of `none` models a failing
`entry.metadata()` call for that entry. -/
inductive FsNode where
  | file (name : String) (kind : FileType) (meta : Option NodeMeta) : FsNode
  | dir (name : String) (meta : Option NodeMeta) (entries : Option (List FsNode)) : FsNode

/-- The bare filename of an entry (`entry.file_name().to_string_lossy()`). -/
def FsNode.name : FsNode → String
  | .file n _ _ => n
  | .dir n _ _ => n

/-- The metadata of an entry, when `entry.metadata()` succeeds. -/
def FsNode.metaOf : FsNode → Option NodeMeta
  | .file _ _ m => m
  | .dir _ m _ => m

/-- The `FileType` reported for an entry (`fsops.rs` lines 461-469: regular
file, then directory, then symlink, anything else reported as `File`). -/
def FsNode.kindOf : FsNode → FileType
  | .file _ k _ => k
  | .dir _ _ _ => FileType.Directory

/-- `metadata.is_dir()` combined with `entry.metadata()` succeeding, the
condition under which `collect_files_recursive` descends into an entry. -/
def FsNode.isDirWithMeta : FsNode → Bool
  | .dir _ (some _) _ => true
  | _ => false

/-- The Unix permission string of `map_data` (`fsops.rs` lines 422-437):
nine characters obtained by testing the mode against
`0o400,0o200,0o100,0o040,0o020,0o010,0o004,0o002,0o001` in that order. -/
def permString (mode : Nat) : String :=
  String.mk [
    if mode &&& 0o400 ≠ 0 then 'r' else '-',
    if mode &&& 0o200 ≠ 0 then 'w' else '-',
    if mode &&& 0o100 ≠ 0 then 'x' else '-',
    if mode &&& 0o040 ≠ 0 then 'r' else '-',
    if mode &&& 0o020 ≠ 0 then 'w' else '-',
    if mode &&& 0o010 ≠ 0 then 'x' else '-',
    if mode &&& 0o004 ≠ 0 then 'r' else '-',
    if mode &&& 0o002 ≠ 0 then 'w' else '-',
    if mode &&& 0o001 ≠ 0 then 'x' else '-']

/-- Modelled from the spec: the display string of the external `bytesize`
crate (`ByteSize(len).to_string()`), which is not part of this repository.
Per the spec, `size_human` uses base-1024 scaling with suffixes
B/KB/MB/GB/TB, rounded for display (one decimal digit here). -/
def byteSizeToString (n : Nat) : String :=
  if n < 1024 then toString n ++ " B"
  else
    let (k, unit) :=
      if n < 1024 ^ 2 then (1, " KB")
      else if n < 1024 ^ 3 then (2, " MB")
      else if n < 1024 ^ 4 then (3, " GB")
      else (4, " TB")
    let tenths := (n * 10 + 1024 ^ k / 2) / 1024 ^ k
    toString (tenths / 10) ++ "." ++ toString (tenths % 10) ++ unit

/-- `map_data` from `fsops.rs` (lines 409-477): extract one entry's record.
Fails exactly when `entry.metadata()` fails; the Unix branch of the
platform-conditional permission/ownership code is the one modelled. -/
def map_data (entry : FsNode) : Option FileEntry :=
  entry.metaOf.map fun m =>
    { name := entry.name
      e_type := entry.kindOf
      len_bytes := m.len_bytes
      human_size := byteSizeToString m.len_bytes
      modified := m.modifiedStr
      permissions := permString m.mode
      owner := m.owner
      group := m.group }

/-- The hidden-file filter shared by `get_files` and
`collect_files_recursive`: keep an entry iff `include_hidden` is set or its
name does not start with `'.'`. -/
def hiddenOk (include_hidden : Bool) (entry : FsNode) : Bool :=
  include_hidden || !(startsWithDot entry.name)

/-- `get_files` from `fsops.rs` (lines 339-354): flat listing.  Reading the
directory fails on a non-directory or on a failing `read_dir`; surviving
entries are mapped through `map_data` in parallel (rayon's ordered
`collect`) and failing extractions are dropped. -/
def get_files (path : FsNode) (include_hidden : Bool) :
    Except Unit (List FileEntry) :=
  match path with
  | .dir _ _ (some entries) =>
    .ok ((entries.filter (hiddenOk include_hidden)).filterMap map_data)
  | _ => .error ()

/-- `usize::MAX`, the default depth bound (`max_depth.unwrap_or(usize::MAX)`). -/
def USIZE_MAX : Nat := 2 ^ 64 - 1

/-- The depth gate at the top of `collect_files_recursive`
(`if let Some(max) = max_depth { if current_depth > max { return Ok(()) } }`). -/
def depthExceeded (max_depth : Option Nat) (current_depth : Nat) : Bool :=
  match max_depth with
  | some m => decide (current_depth > m)
  | none => false

mutual

/-- `collect_files_recursive` from `fsops.rs` (lines 637-687): append this
directory's records, then, while `current_depth < max_depth.unwrap_or(usize::MAX)`,
descend into each subdirectory entry.  Only the error of the root call
escapes; descendant errors are swallowed in `recurseChildren`. -/
def collect_files_recursive (include_hidden : Bool) (max_depth : Option Nat)
    (current_depth : Nat) : FsNode → Except Unit (List FileEntry)
  | .file _ _ _ =>
    if depthExceeded max_depth current_depth then .ok [] else .error ()
  | .dir _ _ none =>
    if depthExceeded max_depth current_depth then .ok [] else .error ()
  | .dir _ _ (some entries) =>
    if depthExceeded max_depth current_depth then .ok []
    else
      let here := (entries.filter (hiddenOk include_hidden)).filterMap map_data
      let sub :=
        if current_depth < max_depth.getD USIZE_MAX then
          recurseChildren include_hidden max_depth (current_depth + 1) entries
        else []
      .ok (here ++ sub)

/-- The descent loop of `collect_files_recursive` (lines 670-684).  The
source iterates the hidden-filtered entry vector; here the hidden filter is
fused into the per-entry guard, which visits the same entries in the same
order.  A child whose metadata is unavailable or that is not a directory is
skipped, and a failing recursive call contributes nothing (`let _ = ...`). -/
def recurseChildren (include_hidden : Bool) (max_depth : Option Nat)
    (depth : Nat) : List FsNode → List FileEntry
  | [] => []
  | e :: rest =>
    (if hiddenOk include_hidden e && e.isDirWithMeta then
       match collect_files_recursive include_hidden max_depth depth e with
       | .ok l => l
       | .error _ => []
     else []) ++ recurseChildren include_hidden max_depth depth rest

end

/-- `get_files_recursive` from `fsops.rs` (lines 627-635): run the recursive
collector from depth 0. -/
def get_files_recursive (path : FsNode) (include_hidden : Bool)
    (max_depth : Option Nat) : Except Unit (List FileEntry) :=
  collect_files_recursive include_hidden max_depth 0 path

example : get_files (.file "x" .File none) false = .error () := rfl

example :
    get_files_recursive (.dir "r" none (some [.file "a" .File none])) true none =
      .ok [] := rfl

/-! ## Size parser (`fsops.rs::parse_size`, lines 555-590) -/

/-- An exactly represented decimal number `mant / 10 ^ scale`.

Modelled from the spec: the numeric prefix "is parsed as a real number" by
the standard library's `f64` parser, which is not part of this repository.
Decimal strings are modelled with their exact rational value; the grammar
(optional sign, integer digits, optional fraction — the prefix is cut at the
first alphabetic character, so exponents and `inf`/`NaN` cannot occur here)
follows the standard grammar on letter-free input. -/
structure DecNum where
  mant : Int
  scale : Nat
deriving DecidableEq, Repr

/-- Value of a digit string (most significant digit first). -/
def digitsToNat (l : List Char) : Nat :=
  l.foldl (fun a c => a * 10 + (c.toNat - '0'.toNat)) 0

/-- Parse a letter-free decimal literal: `['-'|'+'] (digits ['.' digits*] | digits* '.' digits)`.
Returns the exact value, or `none` when the literal is ill-formed. -/
def parseDecimal (l : List Char) : Option DecNum :=
  match l with
  | [] => none
  | _ =>
    let (sgn, body) : Int × List Char :=
      match l with
      | '-' :: r => (-1, r)
      | '+' :: r => (1, r)
      | _ => (1, l)
    let ip := body.takeWhile Char.isDigit
    let rest := body.dropWhile Char.isDigit
    match rest with
    | [] =>
      if ip.isEmpty then none else some ⟨sgn * digitsToNat ip, 0⟩
    | '.' :: fr =>
      let fp := fr.takeWhile Char.isDigit
      if fr.length ≠ fp.length then none
      else if ip.isEmpty && fp.isEmpty then none
      else some ⟨sgn * (digitsToNat ip * 10 ^ fp.length + digitsToNat fp), fp.length⟩
    | _ => none

/-- The unit multiplier table of `parse_size` (`fsops.rs` lines 577-587). -/
def unitMultiplier (unit : String) : Option Nat :=
  match unit with
  | "B" => some 1
  | "KB" => some 1024
  | "K" => some 1024
  | "MB" => some (1024 * 1024)
  | "M" => some (1024 * 1024)
  | "GB" => some (1024 * 1024 * 1024)
  | "G" => some (1024 * 1024 * 1024)
  | "TB" => some (1024 * 1024 * 1024 * 1024)
  | "T" => some (1024 * 1024 * 1024 * 1024)
  | _ => none

/-- The split of the (trimmed, uppercased) input at the first alphabetic
character (`size_str.find(|c| c.is_alphabetic())`); when no alphabetic
character occurs, the whole input is the number and the unit is `"B"`. -/
def splitUnit (s : String) : String × String :=
  let numChars := s.data.takeWhile (fun c => !c.isAlpha)
  let unitChars := s.data.dropWhile (fun c => !c.isAlpha)
  if unitChars.isEmpty then (s, "B") else (String.mk numChars, String.mk unitChars)

/-- The cast `(num * multiplier as f64) as u64` on the exact product
`num * mult = (mant * mult) / 10 ^ scale`: Rust's float-to-integer `as`
truncates toward zero and saturates into `[0, u64::MAX]`, which on every
value equals the floor clamped into that range. -/
def satProd (num : DecNum) (mult : Nat) : Nat :=
  (min (max ((num.mant * mult).fdiv (10 ^ num.scale)) 0) ((2 : Int) ^ 64 - 1)).toNat

/-- `parse_size` from `fsops.rs` (lines 555-590): trim and uppercase, reject
the empty string, split at the first alphabetic character, parse the numeric
prefix (trimmed again) and the unit, and return the saturated product. -/
def parse_size (size_str : String) : Option Nat :=
  let s := rustToUpper (rustTrim size_str)
  if s.data.isEmpty then none
  else
    let pq := splitUnit s
    match parseDecimal (rustTrim pq.1).data with
    | none => none
    | some num =>
      match unitMultiplier pq.2 with
      | none => none
      | some mult => some (satProd num mult)

example : parse_size "1KB" = some 1024 := by decide
example : parse_size "1.5MB" = some 1572864 := by decide
example : parse_size "100" = some 100 := by decide
example : parse_size " 2kb " = some 2048 := by decide
example : parse_size "" = none := by decide
example : parse_size "x" = none := by decide
example : parse_size "1XB" = none := by decide
example : parse_size "-1K" = some 0 := by decide

/-! ## Extension matcher (`fsops.rs::matches_extension`, lines 593-602) -/

/-- `matches_extension`: an empty extension list matches everything;
otherwise some extension, after `trim_start_matches('.')`, must be a
`"." + ext` suffix of the filename (case-sensitively). -/
def matches_extension (filename : String) (extensions : List String) : Bool :=
  if extensions.isEmpty then true
  else
    extensions.any fun ext =>
      endsWithStr filename ("." ++ stripLeadingDots ext)

example : matches_extension "a.rs" ["rs"] = true := by decide
example : matches_extension "a.rs" [".rs"] = true := by decide
example : matches_extension "a.RS" ["rs"] = false := by decide
example : matches_extension "a.RS" ["RS"] = true := by decide
example : matches_extension "a.md" [] = true := by decide
example : matches_extension "x.rs" ["..rs"] = true := by decide

/-! ## Glob matcher

Modelled from the spec (§4.2): the external `glob` crate, not part of this
repository, compiles patterns with `*` (any sequence of non-separator
characters), `?` (one character), `[abc]` classes and `[!abc]` negated
classes; ill-formed patterns (an unclosed or empty class) fail to compile. -/

/-- One compiled token of a glob pattern. -/
inductive GlobToken where
  | star
  | anyChar
  | cls (negated : Bool) (chars : List Char)
  | lit (c : Char)
deriving DecidableEq, Repr

mutual

/-- Compile a pattern, or fail on an ill-formed character class. -/
def compileGlob : List Char → Option (List GlobToken)
  | [] => some []
  | '*' :: r => (compileGlob r).map (GlobToken.star :: ·)
  | '?' :: r => (compileGlob r).map (GlobToken.anyChar :: ·)
  | '[' :: '!' :: r => compileClass true [] r
  | '[' :: r => compileClass false [] r
  | c :: r => (compileGlob r).map (GlobToken.lit c :: ·)

/-- Accumulate the members of a character class up to the closing `']'`;
an exhausted input (unclosed class) or an empty class is an error. -/
def compileClass (negated : Bool) (acc : List Char) :
    List Char → Option (List GlobToken)
  | [] => none
  | ']' :: r =>
    if acc.isEmpty then none
    else (compileGlob r).map (GlobToken.cls negated acc.reverse :: ·)
  | c :: r => compileClass negated (c :: acc) r

end

/-- `glob::Pattern::new`: compile a pattern string. -/
def globNew (pattern : String) : Option (List GlobToken) :=
  compileGlob pattern.data

/-- Whether one character is accepted by one token. -/
def tokenAccepts : GlobToken → Char → Bool
  | .star, c => c != '/'
  | .anyChar, c => c != '/'
  | .cls negated chars, c => negated != chars.contains c
  | .lit l, c => l == c

/-- Evaluate a compiled pattern against a character list: `star` consumes
any (possibly empty) run of non-separator characters, every other token
consumes exactly one accepted character. -/
def globMatch : List GlobToken → List Char → Bool
  | [], [] => true
  | [], _ :: _ => false
  | .star :: ps, cs =>
    globMatch ps cs ||
      (match cs with
       | [] => false
       | c :: cs2 => tokenAccepts .star c && globMatch (.star :: ps) cs2)
  | p :: ps, [] => (p == .star) && globMatch ps []
  | p :: ps, c :: cs => tokenAccepts p c && globMatch ps cs
termination_by ps cs => (ps.length, cs.length)

/-- `glob::Pattern::matches` on a compiled pattern. -/
def globMatchTokens (pattern : List GlobToken) (filename : String) : Bool :=
  globMatch pattern filename.data

/-- `matches_pattern` from `fsops.rs` (lines 616-624): compile the pattern
string; an invalid pattern yields `false` (with a warning) instead of an
error. -/
def matches_pattern (filename : String) (pattern : String) : Bool :=
  match globNew pattern with
  | some pat => globMatchTokens pat filename
  | none => false

example : globNew "[" = none := rfl
example : globNew "[]" = none := rfl
example : globNew "*.rs" =
    some [GlobToken.star, GlobToken.lit '.', GlobToken.lit 'r', GlobToken.lit 's'] := rfl

/-! ## CLI surface (`src/cli.rs`) -/

/-- `SortBy` from `cli.rs`: the sort key. -/
inductive SortBy where
  | Name
  | Size
  | Date
deriving DecidableEq, Repr

/-- `OutputFormat` from `cli.rs`. -/
inductive OutputFormat where
  | Table
  | Json
  | JsonPretty
deriving DecidableEq, Repr

/-- The listing-request fields of `Cli` (`cli.rs` lines 146-268).  The
`completion`/`theme` subcommands and the path value are driver concerns
outside the listing pipeline; the filesystem the path denotes is passed to
the pipeline explicitly as an `FsNode`. -/
structure Cli where
  json : Bool := false
  json_pretty : Bool := false
  sort_by : SortBy := SortBy.Name
  all : Bool := false
  compact : Bool := false
  columns : Option String := none
  output_file : Option String := none
  format : OutputFormat := OutputFormat.Table
  no_color : Bool := false
  tree : Bool := false
  depth : Option Nat := none
  filter_ext : Option String := none
  filter_name : Option String := none
  min_size : Option String := none
  max_size : Option String := none
deriving Repr

/-- `Cli::effective_format` (`cli.rs` lines 433-442): legacy flags override
`--format`, with `--json-pretty` strongest. -/
def Cli.effective_format (cli : Cli) : OutputFormat :=
  if cli.json_pretty then OutputFormat.JsonPretty
  else if cli.json then OutputFormat.Json
  else cli.format

/-! ## Filter configuration (`src/main.rs`) -/

/-- `ConfigError` from `main.rs` (lines 86-91).  The source stores
already-formatted message strings; here each constructor stores the value
the message is formatted from. -/
inductive ConfigError where
  | InvalidGlobPattern (pattern : String)
  | InvalidMinSize (s : String)
  | InvalidMaxSize (s : String)
  | SizeRangeInvalid (mn mx : Nat)
deriving DecidableEq, Repr

/-- The `Display` rendering of a `ConfigError` (`main.rs` lines 93-102). -/
def configErrorMsg : ConfigError → String
  | .InvalidGlobPattern p => "invalid glob pattern: " ++ p
  | .InvalidMinSize s => "invalid --min-size value: " ++ s
  | .InvalidMaxSize s => "invalid --max-size value: " ++ s
  | .SizeRangeInvalid mn mx =>
    "--min-size (" ++ toString mn ++ ") must be less than or equal to --max-size ("
      ++ toString mx ++ ")"

/-- `FilterConfig` from `main.rs` (lines 107-112): the predicates compiled
once at request-validation time. -/
structure FilterConfig where
  exts : Option (List String)
  name_pattern : Option (List GlobToken)
  min_size : Option Nat
  max_size : Option Nat
deriving DecidableEq, Repr

/-- The per-extension normalization of `FilterConfig::from_cli`
(`main.rs` line 122): `s.trim().trim_start_matches('.').to_lowercase()`. -/
def normalizeExt (s : String) : String :=
  rustToLower (stripLeadingDots (rustTrim s))

/-- `FilterConfig::from_cli` (`main.rs` lines 117-175): normalize the
extension list, compile the glob pattern, parse both size strings, check
`min_size ≤ max_size`; the first failure is returned. -/
def FilterConfig.from_cli (cli : Cli) : Except ConfigError FilterConfig := do
  let exts := cli.filter_ext.map fun ef => (rustSplit ',' ef).map normalizeExt
  let name_pattern ←
    match cli.filter_name with
    | some ps =>
      match globNew ps with
      | some pat => pure (some pat)
      | none => throw (ConfigError.InvalidGlobPattern ps)
    | none => pure none
  let min_size ←
    match cli.min_size with
    | some ms =>
      match parse_size ms with
      | some v => pure (some v)
      | none => throw (ConfigError.InvalidMinSize ms)
    | none => pure none
  let max_size ←
    match cli.max_size with
    | some ms =>
      match parse_size ms with
      | some v => pure (some v)
      | none => throw (ConfigError.InvalidMaxSize ms)
    | none => pure none
  match min_size, max_size with
  | some mn, some mx =>
    if mn > mx then throw (ConfigError.SizeRangeInvalid mn mx) else pure ()
  | _, _ => pure ()
  pure { exts, name_pattern, min_size, max_size }

/-- `passes_filters` from `main.rs` (lines 179-209): the four early-return
checks, in source order, as a conjunction.  The compiled `name_pattern` is
evaluated directly on the name. -/
def passes_filters (f : FileEntry) (cfg : FilterConfig) : Bool :=
  (match cfg.exts with
   | some exts => matches_extension f.name exts
   | none => true) &&
  (match cfg.name_pattern with
   | some pat => globMatchTokens pat f.name
   | none => true) &&
  (match cfg.min_size with
   | some mn => !decide (f.len_bytes < mn)
   | none => true) &&
  (match cfg.max_size with
   | some mx => !decide (f.len_bytes > mx)
   | none => true)

/-- `load_files` from `main.rs` (lines 212-218): tree or flat traversal. -/
def load_files (cli : Cli) (root : FsNode) (include_hidden : Bool) :
    Except Unit (List FileEntry) :=
  if cli.tree then get_files_recursive root include_hidden cli.depth
  else get_files root include_hidden

/-! ## Sorter (`main.rs` lines 313-324)

`Vec::sort_by` is a stable sort, and a stable sort's output is uniquely
determined by the comparator, so Lean's stable `List.mergeSort` is an exact
model.  The comparators are `cmp` on the key; Rust's `String` ordering is
byte-wise lexicographic, which on (always valid) UTF-8 strings coincides
with the code-point lexicographic `≤` used here. -/

/-- The sort step of `main`: stable sort by the requested key. -/
def sortFiles : SortBy → List FileEntry → List FileEntry
  | SortBy.Name, files => files.mergeSort fun a b => decide (a.name ≤ b.name)
  | SortBy.Size, files => files.mergeSort fun a b => decide (a.len_bytes ≤ b.len_bytes)
  | SortBy.Date, files => files.mergeSort fun a b => decide (a.modified ≤ b.modified)

/-! ## Renderers (`src/table.rs`, serde_json) -/

/-- A left brace as string data (JSON delimiters). -/
def lbrace : String := String.mk [Char.ofNat 123]

/-- A right brace as string data (JSON delimiters). -/
def rbrace : String := String.mk [Char.ofNat 125]

/-- JSON string escaping of serde_json: quote, backslash and control
characters are escaped. -/
def jsonEscapeChar (c : Char) : List Char :=
  if c == '"' then ['\\', '"']
  else if c == '\\' then ['\\', '\\']
  else if c == '\n' then ['\\', 'n']
  else if c == '\r' then ['\\', 'r']
  else if c == '\t' then ['\\', 't']
  else if c.toNat < 32 then
    ['\\', 'u', '0', '0',
     (if c.toNat / 16 < 10 then Char.ofNat ('0'.toNat + c.toNat / 16)
      else Char.ofNat ('a'.toNat + c.toNat / 16 - 10)),
     (if c.toNat % 16 < 10 then Char.ofNat ('0'.toNat + c.toNat % 16)
      else Char.ofNat ('a'.toNat + c.toNat % 16 - 10))]
  else [c]

/-- Escape a whole string for JSON. -/
def jsonEscape (s : String) : String :=
  String.mk (s.data.foldr (fun c acc => jsonEscapeChar c ++ acc) [])

/-- The variant name serialized for `e_type` (strum `Display` / serde). -/
def fileTypeStr : FileType → String
  | .File => "File"
  | .Directory => "Directory"
  | .Symlink => "Symlink"

/-- One record as a compact JSON object, keys in declaration order
(`serde_json::to_string` on `FileEntry`). -/
def jsonOfEntry (f : FileEntry) : String :=
  lbrace ++ "\"name\":\"" ++ jsonEscape f.name ++ "\",\"e_type\":\"" ++
    fileTypeStr f.e_type ++ "\",\"len_bytes\":" ++ toString f.len_bytes ++
    ",\"human_size\":\"" ++ jsonEscape f.human_size ++ "\",\"modified\":\"" ++
    jsonEscape f.modified ++ "\",\"permissions\":\"" ++ jsonEscape f.permissions ++
    "\",\"owner\":\"" ++ jsonEscape f.owner ++ "\",\"group\":\"" ++
    jsonEscape f.group ++ "\"" ++ rbrace

/-- `serde_json::to_string` on the record vector: a compact JSON array. -/
def jsonCompact (files : List FileEntry) : String :=
  "[" ++ String.intercalate "," (files.map jsonOfEntry) ++ "]"

/-- Modelled from the spec: `serde_json::to_string_pretty` (external crate)
emits the identical schema, human-indented; the payload remains a pure
function of the records. -/
def jsonPretty (files : List FileEntry) : String :=
  "[\n" ++ String.intercalate ",\n" (files.map (fun f => "  " ++ jsonOfEntry f)) ++ "\n]"

/-- Modelled from the spec: the bordered table of the external `tabled`
crate (§4.8), a pure function of the records; the fixed column set
{Name, Type, Size, Modified, Permissions, Owner, Group} is emitted row by
row (border drawing and the theme's color codes are not reproduced). -/
def tableRender (files : List FileEntry) : String :=
  String.intercalate "\n"
    ("Name | Type | Size | Modified | Permissions | Owner | Group" ::
      files.map fun f =>
        f.name ++ " | " ++ fileTypeStr f.e_type ++ " | " ++ f.human_size ++ " | " ++
          f.modified ++ " | " ++ f.permissions ++ " | " ++ f.owner ++ " | " ++ f.group)

/-- `format_table` from `table.rs` (lines 275-323): the compact branch joins
the bare names with newlines; otherwise the table is rendered (`columns` is
accepted and ignored, line 287). -/
def format_table (files : List FileEntry) (columns : Option String)
    (compact : Bool) (use_color : Bool) : String :=
  if compact then String.intercalate "\n" (files.map (fun f => f.name))
  else
    let _ := columns
    let _ := use_color
    tableRender files

/-! ## Driver (`main.rs::main`, lines 270-364) -/

/-- The observable outcome of one `main` run on a listing request: the
process exit code, the lines written to standard error, and the rendered
payload (`none` when no output is produced). -/
structure MainOutcome where
  exitCode : Nat
  stderr : List String
  rendered : Option String
deriving DecidableEq, Repr

/-- `main` from `main.rs` on a listing request (no subcommand): build the
filter configuration (exit 2 on failure), load the files (an error prints to
standard error and falls through to the normal exit), filter, sort, and
render by the effective format.  Delivery of the payload to stdout or to
`--out` is driver I/O outside the model; the payload itself is `rendered`. -/
def main_run (cli : Cli) (root : FsNode) : MainOutcome :=
  match FilterConfig.from_cli cli with
  | .error e =>
    { exitCode := 2, stderr := ["Error: " ++ configErrorMsg e], rendered := none }
  | .ok filter_cfg =>
    match load_files cli root cli.all with
    | .error _ =>
      { exitCode := 0, stderr := ["Failed to read directory"], rendered := none }
    | .ok files0 =>
      let files1 := files0.filter fun f => passes_filters f filter_cfg
      let files := sortFiles cli.sort_by files1
      let output :=
        match cli.effective_format with
        | OutputFormat.Json => jsonCompact files
        | OutputFormat.JsonPretty => jsonPretty files
        | OutputFormat.Table =>
          format_table files cli.columns cli.compact (!cli.no_color)
      { exitCode := 0, stderr := [], rendered := some output }

example :
    (main_run { tree := false } (FsNode.file "f" FileType.File none)).exitCode = 0 := by
  decide

example :
    (main_run { filter_name := some "[" } (FsNode.file "f" FileType.File none)).exitCode
      = 2 := by
  decide

/-! ## Sorting lemmas -/

/-- Sortedness of `mergeSort` under a key comparator. -/
theorem mergeSort_key_sorted {α κ : Type} [LinearOrder κ] (key : α → κ) (l : List α) :
    (l.mergeSort fun a b => decide (key a ≤ key b)).Pairwise fun a b => key a ≤ key b := by
  have h := @List.sorted_mergeSort _ (fun a b => decide (key a ≤ key b))
    (fun a b c h1 h2 => by
      simp only [decide_eq_true_eq] at h1 h2 ⊢
      exact le_trans h1 h2)
    (fun a b => by simpa using le_total (key a) (key b)) l
  exact h.imp (by simp)

/-- Stability of `mergeSort` under a key comparator: the elements of any one
key class keep their input order (their filtered subsequence is unchanged). -/
theorem mergeSort_key_stable {α κ : Type} [LinearOrder κ] [DecidableEq κ]
    (key : α → κ) (l : List α) (k : κ) :
    ((l.mergeSort fun a b => decide (key a ≤ key b)).filter fun a => decide (key a = k)) =
      l.filter fun a => decide (key a = k) := by
  have trans : ∀ a b c : α, (fun a b => decide (key a ≤ key b)) a b →
      (fun a b => decide (key a ≤ key b)) b c → (fun a b => decide (key a ≤ key b)) a c := by
    intro a b c h1 h2
    simp only [decide_eq_true_eq] at h1 h2 ⊢
    exact le_trans h1 h2
  have total : ∀ a b : α, ((fun a b => decide (key a ≤ key b)) a b ||
      (fun a b => decide (key a ≤ key b)) b a) = true := by
    intro a b
    simpa using le_total (key a) (key b)
  have hmem : ∀ a ∈ l.filter fun a => decide (key a = k), key a = k := by
    intro a ha
    simpa using List.of_mem_filter ha
  have hpair : (l.filter fun a => decide (key a = k)).Pairwise
      fun a b => (fun a b => decide (key a ≤ key b)) a b := by
    apply List.pairwise_of_forall_mem_list
    intro a ha b hb
    simp [hmem a ha, hmem b hb]
  have h1 := List.sublist_mergeSort trans total hpair (List.filter_sublist l)
  have h2 : ((l.filter fun a => decide (key a = k)).filter fun a => decide (key a = k)) =
      l.filter fun a => decide (key a = k) :=
    List.filter_eq_self.mpr fun a ha => by simpa using hmem a ha
  have h3 : List.Sublist (l.filter fun a => decide (key a = k))
      ((l.mergeSort fun a b => decide (key a ≤ key b)).filter fun a => decide (key a = k)) := by
    have := h1.filter fun a => decide (key a = k)
    rwa [h2] at this
  have h4 : List.Perm
      ((l.mergeSort fun a b => decide (key a ≤ key b)).filter fun a => decide (key a = k))
      (l.filter fun a => decide (key a = k)) :=
    (List.mergeSort_perm l _).filter _
  exact (h3.eq_of_length h4.length_eq.symm).symm

/-- C6: sorting by name/size/date produces a sequence non-decreasing in the
respective key (byte-wise string order for `name` and `modified`, numeric
order for `size_bytes`), and each sort is stable: the records of any one key
value keep their relative input order. -/
theorem sortFiles_sorted_and_stable (l : List FileEntry) :
    ((sortFiles SortBy.Name l).Pairwise fun a b => a.name ≤ b.name) ∧
    ((sortFiles SortBy.Size l).Pairwise fun a b => a.len_bytes ≤ b.len_bytes) ∧
    ((sortFiles SortBy.Date l).Pairwise fun a b => a.modified ≤ b.modified) ∧
    (∀ k : String, ((sortFiles SortBy.Name l).filter fun f => decide (f.name = k)) =
      l.filter fun f => decide (f.name = k)) ∧
    (∀ n : Nat, ((sortFiles SortBy.Size l).filter fun f => decide (f.len_bytes = n)) =
      l.filter fun f => decide (f.len_bytes = n)) ∧
    (∀ k : String, ((sortFiles SortBy.Date l).filter fun f => decide (f.modified = k)) =
      l.filter fun f => decide (f.modified = k)) :=
  ⟨mergeSort_key_sorted (fun f => f.name) l,
   mergeSort_key_sorted (fun f => f.len_bytes) l,
   mergeSort_key_sorted (fun f => f.modified) l,
   fun k => mergeSort_key_stable (fun f => f.name) l k,
   fun n => mergeSort_key_stable (fun f => f.len_bytes) l n,
   fun k => mergeSort_key_stable (fun f => f.modified) l k⟩

/-- C9: recursive traversal with `max_depth = 0` returns exactly the flat
listing of the same directory, including agreement on the error case. -/
theorem tree_depth_zero_eq_flat (path : FsNode) (include_hidden : Bool) :
    get_files_recursive path include_hidden (some 0) = get_files path include_hidden := by
  cases path with
  | file n k m => rfl
  | dir n m entries =>
    cases entries with
    | none => rfl
    | some es =>
      simp [get_files_recursive, collect_files_recursive, get_files, depthExceeded]

/-- C10: on any pattern string the compiler rejects, `matches_pattern`
returns `false` for every filename (it is total and never raises). -/
theorem matches_pattern_invalid_false (filename pattern : String)
    (h : globNew pattern = none) : matches_pattern filename pattern = false := by
  simp [matches_pattern, h]

/-- Witness for C10 at the unclosed class pattern `"["`. -/
theorem matches_pattern_invalid_false_witness :
    globNew "[" = none ∧ matches_pattern "x" "[" = false :=
  ⟨rfl, matches_pattern_invalid_false "x" "[" rfl⟩

/-- C5: a record passes the filter chain iff every enabled predicate
(extension, name pattern, minimum size, maximum size) accepts it, disabled
predicates accepting everything; and when both size bounds carry the same
value `v`, passing is equivalent to the other predicates accepting and the
size being exactly `v`. -/
theorem passes_filters_spec (f : FileEntry) (cfg : FilterConfig) :
    (passes_filters f cfg = true ↔
      ((∀ exts, cfg.exts = some exts → matches_extension f.name exts = true) ∧
       (∀ pat, cfg.name_pattern = some pat → globMatchTokens pat f.name = true) ∧
       (∀ mn, cfg.min_size = some mn → mn ≤ f.len_bytes) ∧
       (∀ mx, cfg.max_size = some mx → f.len_bytes ≤ mx))) ∧
    (∀ v, cfg.min_size = some v → cfg.max_size = some v →
      (passes_filters f cfg = true ↔
        ((∀ exts, cfg.exts = some exts → matches_extension f.name exts = true) ∧
         (∀ pat, cfg.name_pattern = some pat → globMatchTokens pat f.name = true) ∧
         f.len_bytes = v))) := by
  obtain ⟨e, np, mn, mx⟩ := cfg
  constructor
  · cases e <;> cases np <;> cases mn <;> cases mx <;>
      simp [passes_filters, and_assoc]
  · intro v h1 h2
    simp only at h1 h2
    subst h1
    subst h2
    have hiff : v ≤ f.len_bytes ∧ f.len_bytes ≤ v ↔ f.len_bytes = v := by omega
    cases e <;> cases np <;> simp [passes_filters, and_assoc, hiff]

/-! ## The hidden-file invariant -/

/-- `map_data` reports the entry's own name. -/
theorem map_data_name {e : FsNode} {r : FileEntry} (h : map_data e = some r) :
    r.name = e.name := by
  cases e with
  | file n k m =>
    cases m with
    | none => simp [map_data, FsNode.metaOf] at h
    | some mm =>
      simp [map_data, FsNode.metaOf] at h
      subst h
      rfl
  | dir n m entries =>
    cases m with
    | none => simp [map_data, FsNode.metaOf] at h
    | some mm =>
      simp [map_data, FsNode.metaOf] at h
      subst h
      rfl

/-- Records built from a hidden-filtered entry list have non-hidden names. -/
theorem filterMap_records_not_hidden {es : List FsNode} {r : FileEntry}
    (h : r ∈ (es.filter (hiddenOk false)).filterMap map_data) :
    startsWithDot r.name = false := by
  rcases List.mem_filterMap.mp h with ⟨e, he, hme⟩
  have hok := List.of_mem_filter he
  simp [hiddenOk] at hok
  rw [map_data_name hme]
  exact hok

/-- Every record produced by the recursive collector with
`include_hidden = false` has a non-hidden name, at every depth
(strong induction on the size of the visited tree). -/
theorem collect_records_not_hidden (md : Option Nat) (K : Nat) :
    (∀ n : FsNode, sizeOf n ≤ K → ∀ d l,
      collect_files_recursive false md d n = .ok l →
      ∀ r ∈ l, startsWithDot r.name = false) ∧
    (∀ es : List FsNode, sizeOf es ≤ K → ∀ d r,
      r ∈ recurseChildren false md d es → startsWithDot r.name = false) := by
  induction K using Nat.strong_induction_on with
  | _ K IH =>
    constructor
    · intro n hn d l hl r hr
      cases n with
      | file nm k m =>
        cases hde : depthExceeded md d <;> simp [collect_files_recursive, hde] at hl
        subst hl
        simp at hr
      | dir nm m entries =>
        cases entries with
        | none =>
          cases hde : depthExceeded md d <;> simp [collect_files_recursive, hde] at hl
          subst hl
          simp at hr
        | some es =>
          cases hde : depthExceeded md d <;> simp [collect_files_recursive, hde] at hl
          · subst hl
            rcases List.mem_append.mp hr with hr1 | hr1
            · exact filterMap_records_not_hidden hr1
            · by_cases hlt : d < md.getD USIZE_MAX
              · simp only [if_pos hlt] at hr1
                have hsz : sizeOf es < K := by
                  have h1 : sizeOf es < sizeOf (FsNode.dir nm m (some es)) := by
                    simp <;> omega
                  omega
                exact (IH (sizeOf es) hsz).2 es le_rfl (d + 1) r hr1
              · simp only [if_neg hlt] at hr1
                simp at hr1
          · subst hl
            simp at hr
    · intro es hs d r hr
      cases es with
      | nil => simp [recurseChildren] at hr
      | cons e rest =>
        simp only [recurseChildren] at hr
        rcases List.mem_append.mp hr with hr1 | hr1
        · by_cases hg : (hiddenOk false e && e.isDirWithMeta) = true
          · simp only [if_pos hg] at hr1
            cases hcl : collect_files_recursive false md d e with
            | error u => simp [hcl] at hr1
            | ok l' =>
              simp only [hcl] at hr1
              have hsz : sizeOf e < K := by
                have h1 : sizeOf e < sizeOf (e :: rest) := by
                  simp <;> omega
                omega
              exact (IH (sizeOf e) hsz).1 e le_rfl d l' hcl r hr1
          · rw [if_neg hg] at hr1
            simp at hr1
        · have hsz : sizeOf rest < K := by
            have h1 : sizeOf rest < sizeOf (e :: rest) := by
              simp <;> omega
            omega
          exact (IH (sizeOf rest) hsz).2 rest le_rfl d r hr1

/-- C7: with `include_hidden = false`, no record returned by the flat or the
recursive traversal has a name beginning with `'.'`. -/
theorem no_hidden_records (path : FsNode) (md : Option Nat)
    (l : List FileEntry) (r : FileEntry)
    (h : get_files path false = .ok l ∨ get_files_recursive path false md = .ok l)
    (hr : r ∈ l) : startsWithDot r.name = false := by
  rcases h with h | h
  · cases path with
    | file nm k m => simp [get_files] at h
    | dir nm m entries =>
      cases entries with
      | none => simp [get_files] at h
      | some es =>
        simp [get_files] at h
        subst h
        exact filterMap_records_not_hidden hr
  · exact (collect_records_not_hidden md (sizeOf path)).1 path le_rfl 0 l h r hr

/-- The directory of scenario 2 (`.hidden`, `visible`). -/
def w7tree : FsNode :=
  FsNode.dir "root" (some ⟨3, "", 0o755, "u", "g"⟩) (some [
    FsNode.file ".hidden" FileType.File (some ⟨1, "", 0o644, "u", "g"⟩),
    FsNode.file "visible" FileType.File (some ⟨2, "", 0o644, "u", "g"⟩)])

/-- The record `get_files` builds for `visible`. -/
def w7rec : FileEntry :=
  { name := "visible", e_type := FileType.File, len_bytes := 2,
    human_size := byteSizeToString 2, modified := "",
    permissions := permString 0o644, owner := "u", group := "g" }

/-- Witness for C7 on scenario 2: the record returned for `visible` is not hidden. -/
theorem no_hidden_records_witness : startsWithDot w7rec.name = false :=
  no_hidden_records w7tree none [w7rec] w7rec (Or.inl rfl) (by simp)

/-! ## Tree-depth behaviour (scenario 6) -/

/-- Shared metadata for the scenario-6 tree. -/
def c1meta : NodeMeta := ⟨1, "", 0o644, "u", "g"⟩

/-- The tree `root/{a, d/{b, e/{c}}}` of scenario 6. -/
def c1tree : FsNode :=
  FsNode.dir "root" (some c1meta) (some [
    FsNode.file "a" FileType.File (some c1meta),
    FsNode.dir "d" (some c1meta) (some [
      FsNode.file "b" FileType.File (some c1meta),
      FsNode.dir "e" (some c1meta) (some [
        FsNode.file "c" FileType.File (some c1meta)])])])

/-- The names of the records of a successful traversal (empty on error). -/
def resultNames (r : Except Unit (List FileEntry)) : List String :=
  match r with
  | .ok l => l.map fun f => f.name
  | .error _ => []

/-- C1 counterexample: with `--tree --depth 1`, the traversal of
`root/{a, d/{b, e/{c}}}` returns a record for `b`, an entry located inside
the subdirectory `d` of the root. -/
theorem depth_one_emits_subdirectory_entry :
    "b" ∈ resultNames (get_files_recursive c1tree false (some 1)) := by
  decide

/-- C1 (amended): with `max_depth = 1` the collector emits the records of
every directory it visits (the root at depth 0 and its child directories at
depth 1), so the result on `root/{a, d/{b, e/{c}}}` is exactly
`a, d, b, e` in traversal order, and no record for `c` appears. -/
theorem depth_one_records_exact :
    resultNames (get_files_recursive c1tree false (some 1)) = ["a", "d", "b", "e"] ∧
    "c" ∉ resultNames (get_files_recursive c1tree false (some 1)) := by
  constructor
  · decide
  · decide

/-! ## Root-read failure (C2) -/

/-- C2 (amended): when the filter configuration is accepted but the root
cannot be opened or enumerated, `main` writes a human-readable message to
standard error, produces no rendered output, and exits with code 0 - the
error is not reflected in the exit status. -/
theorem root_read_failure_outcome (cli : Cli) (root : FsNode) (cfg : FilterConfig)
    (h1 : FilterConfig.from_cli cli = .ok cfg)
    (h2 : load_files cli root cli.all = .error ()) :
    main_run cli root =
      { exitCode := 0, stderr := ["Failed to read directory"], rendered := none } := by
  simp [main_run, h1, h2]

/-- Witness for C2 at the default request on an unreadable root. -/
theorem root_read_failure_outcome_witness :
    main_run {} (FsNode.dir "root" none none) =
      { exitCode := 0, stderr := ["Failed to read directory"], rendered := none } :=
  root_read_failure_outcome {} (FsNode.dir "root" none none)
    ⟨none, none, none, none⟩ rfl rfl

/-- C2 counterexample: on an unreadable root the process exit code is `0`,
not non-zero (stderr is written and no output is produced, as claimed). -/
theorem root_read_failure_exit_code_zero :
    (main_run {} (FsNode.dir "r" none none)).exitCode = 0 ∧
    (main_run {} (FsNode.dir "r" none none)).rendered = none ∧
    (main_run {} (FsNode.dir "r" none none)).stderr ≠ [] := by
  decide

/-! ## Request validation (C3) -/

/-- C3: each invalid filter input fails `from_cli` with its specific error
(in the source's checking order), and any configuration error makes the run
exit with code 2, produce no output, and never touch the filesystem (the
outcome is the same for every root). -/
theorem invalid_request_rejected (cli : Cli) (root root2 : FsNode) :
    (∀ ps, cli.filter_name = some ps → globNew ps = none →
      FilterConfig.from_cli cli = .error (ConfigError.InvalidGlobPattern ps)) ∧
    (∀ ms, (∀ ps ∈ cli.filter_name, (globNew ps).isSome) →
      cli.min_size = some ms → parse_size ms = none →
      FilterConfig.from_cli cli = .error (ConfigError.InvalidMinSize ms)) ∧
    (∀ ms, (∀ ps ∈ cli.filter_name, (globNew ps).isSome) →
      (∀ s ∈ cli.min_size, (parse_size s).isSome) →
      cli.max_size = some ms → parse_size ms = none →
      FilterConfig.from_cli cli = .error (ConfigError.InvalidMaxSize ms)) ∧
    (∀ smn smx mn mx, (∀ ps ∈ cli.filter_name, (globNew ps).isSome) →
      cli.min_size = some smn → parse_size smn = some mn →
      cli.max_size = some smx → parse_size smx = some mx → mn > mx →
      FilterConfig.from_cli cli = .error (ConfigError.SizeRangeInvalid mn mx)) ∧
    (∀ e, FilterConfig.from_cli cli = .error e →
      main_run cli root =
        { exitCode := 2, stderr := ["Error: " ++ configErrorMsg e], rendered := none } ∧
      main_run cli root = main_run cli root2) := by
  refine ⟨?_, ?_, ?_, ?_, ?_⟩
  · intro ps hps hg
    simp [FilterConfig.from_cli, bind, Except.bind, throw, throwThe, pure, Except.pure, MonadExceptOf.throw, Functor.map, Except.map, hps, hg]
  · intro ms hg hms hps
    cases hfn : cli.filter_name with
    | none => simp [FilterConfig.from_cli, bind, Except.bind, throw, throwThe, pure, Except.pure, MonadExceptOf.throw, Functor.map, Except.map, hfn, hms, hps]
    | some ps =>
      obtain ⟨pat, hpat⟩ := Option.isSome_iff_exists.mp (hg ps (by simp [hfn]))
      simp [FilterConfig.from_cli, bind, Except.bind, throw, throwThe, pure, Except.pure, MonadExceptOf.throw, Functor.map, Except.map, hfn, hpat, hms, hps]
  · intro ms hg hmn hms hps
    cases hfn : cli.filter_name with
    | none =>
      cases hmin : cli.min_size with
      | none => simp [FilterConfig.from_cli, bind, Except.bind, throw, throwThe, pure, Except.pure, MonadExceptOf.throw, Functor.map, Except.map, hfn, hmin, hms, hps]
      | some s =>
        obtain ⟨v, hv⟩ := Option.isSome_iff_exists.mp (hmn s (by simp [hmin]))
        simp [FilterConfig.from_cli, bind, Except.bind, throw, throwThe, pure, Except.pure, MonadExceptOf.throw, Functor.map, Except.map, hfn, hmin, hv, hms, hps]
    | some ps =>
      obtain ⟨pat, hpat⟩ := Option.isSome_iff_exists.mp (hg ps (by simp [hfn]))
      cases hmin : cli.min_size with
      | none => simp [FilterConfig.from_cli, bind, Except.bind, throw, throwThe, pure, Except.pure, MonadExceptOf.throw, Functor.map, Except.map, hfn, hpat, hmin, hms, hps]
      | some s =>
        obtain ⟨v, hv⟩ := Option.isSome_iff_exists.mp (hmn s (by simp [hmin]))
        simp [FilterConfig.from_cli, bind, Except.bind, throw, throwThe, pure, Except.pure, MonadExceptOf.throw, Functor.map, Except.map, hfn, hpat, hmin, hv, hms, hps]
  · intro smn smx mn mx hg hmn hpmn hmx hpmx hlt
    cases hfn : cli.filter_name with
    | none => simp [FilterConfig.from_cli, bind, Except.bind, throw, throwThe, pure, Except.pure, MonadExceptOf.throw, Functor.map, Except.map, hfn, hmn, hpmn, hmx, hpmx, hlt]
    | some ps =>
      obtain ⟨pat, hpat⟩ := Option.isSome_iff_exists.mp (hg ps (by simp [hfn]))
      simp [FilterConfig.from_cli, bind, Except.bind, throw, throwThe, pure, Except.pure, MonadExceptOf.throw, Functor.map, Except.map, hfn, hpat, hmn, hpmn, hmx, hpmx, hlt]
  · intro e he
    constructor
    · simp [main_run, he]
    · simp [main_run, he]

/-- The request of scenario 5-like shape with an unclosed glob class. -/
def c3badCli : Cli := { filter_name := some "[" }

/-- Witness for C3 at the invalid pattern `"["`. -/
theorem invalid_request_rejected_witness :
    FilterConfig.from_cli c3badCli = .error (ConfigError.InvalidGlobPattern "[") ∧
    main_run c3badCli (FsNode.dir "w" none none) =
      { exitCode := 2,
        stderr := ["Error: " ++ configErrorMsg (ConfigError.InvalidGlobPattern "[")],
        rendered := none } := by
  have h := invalid_request_rejected c3badCli (FsNode.dir "w" none none)
    (FsNode.dir "w" none none)
  have h1 := h.1 "[" rfl rfl
  exact ⟨h1, ((h.2.2.2.2 (ConfigError.InvalidGlobPattern "[")) h1).1⟩

/-! ## Size-parser characterization (C4) -/

/-- Floor division by a power of ten computes the rational floor of the
exact product `(m / 10 ^ k) * c`. -/
theorem fdiv_pow_eq_floor (m : Int) (k c : Nat) :
    (m * c).fdiv (10 ^ k) = ⌊(m : ℚ) / 10 ^ k * c⌋ := by
  have h1 : (m : ℚ) / 10 ^ k * c = ((m * c : Int) : ℚ) / ((10 ^ k : ℕ) : ℚ) := by
    push_cast
    ring
  rw [h1, Rat.floor_intCast_div_natCast, Int.fdiv_eq_ediv _ (by positivity)]
  norm_cast

/-- C4 (amended): `parse_size` fails exactly when the trimmed uppercased
input is empty, its numeric prefix is not a well-formed decimal, or its unit
is not an accepted token; on success it returns the floor of the exact real
product of the prefix with the unit multiplier, clamped into the `u64` range
`[0, 2^64 - 1]` (so a negative product yields `0`); the multipliers are
B=1, K/KB=1024, M/MB=1024², G/GB=1024³, T/TB=1024⁴ and nothing else; and
`"1KB"` yields `1024` while `"1.5MB"` yields `1572864`. -/
theorem parse_size_spec (s : String) :
    (parse_size s = none ↔
      ((rustToUpper (rustTrim s)).data = [] ∨
       parseDecimal (rustTrim (splitUnit (rustToUpper (rustTrim s))).1).data = none ∨
       unitMultiplier (splitUnit (rustToUpper (rustTrim s))).2 = none)) ∧
    (∀ num mult,
      parseDecimal (rustTrim (splitUnit (rustToUpper (rustTrim s))).1).data = some num →
      unitMultiplier (splitUnit (rustToUpper (rustTrim s))).2 = some mult →
      parse_size s =
        some ((min (max ⌊(num.mant : ℚ) / 10 ^ num.scale * mult⌋ 0) (2 ^ 64 - 1)).toNat)) ∧
    (unitMultiplier "B" = some 1 ∧ unitMultiplier "K" = some 1024 ∧
     unitMultiplier "KB" = some 1024 ∧ unitMultiplier "M" = some (1024 ^ 2) ∧
     unitMultiplier "MB" = some (1024 ^ 2) ∧ unitMultiplier "G" = some (1024 ^ 3) ∧
     unitMultiplier "GB" = some (1024 ^ 3) ∧ unitMultiplier "T" = some (1024 ^ 4) ∧
     unitMultiplier "TB" = some (1024 ^ 4) ∧
     (∀ u m, unitMultiplier u = some m →
        u ∈ ["B", "K", "KB", "M", "MB", "G", "GB", "T", "TB"])) ∧
    (parse_size "1KB" = some 1024 ∧ parse_size "1.5MB" = some 1572864) := by
  refine ⟨?_, ?_, ?_, by decide, by decide⟩
  · by_cases h0 : (rustToUpper (rustTrim s)).data = []
    · have hs : rustToUpper (rustTrim s) = "" := congrArg String.mk h0
      simp [parse_size, hs]
    · simp only [parse_size, List.isEmpty_iff, h0, if_neg]
      cases hd : parseDecimal (rustTrim (splitUnit (rustToUpper (rustTrim s))).1).data with
      | none => simp [hd, h0]
      | some num =>
        cases hm : unitMultiplier (splitUnit (rustToUpper (rustTrim s))).2 with
        | none => simp [hd, hm, h0]
        | some mult => simp [hd, hm, h0]
  · intro num mult hd hm
    have h0 : ¬((rustToUpper (rustTrim s)).data = []) := by
      intro h0
      have hs : rustToUpper (rustTrim s) = "" := congrArg String.mk h0
      rw [hs] at hd
      simp [splitUnit, rustTrim, parseDecimal] at hd
    simp only [parse_size, List.isEmpty_iff, h0, if_neg, hd, hm, satProd]
    rw [fdiv_pow_eq_floor]
    simp
  · refine ⟨rfl, rfl, rfl, rfl, rfl, rfl, rfl, rfl, rfl, ?_⟩
    intro u m h
    simp only [unitMultiplier] at h
    split at h <;> simp_all

/-- Witness for C4: `"2.5KB"` parses to the clamped floor of `2.5 * 1024`. -/
theorem parse_size_spec_witness :
    parse_size "2.5KB" =
      some ((min (max ⌊((25 : Int) : ℚ) / 10 ^ (1 : Nat) * (1024 : ℕ)⌋ 0)
        (2 ^ 64 - 1)).toNat) :=
  (parse_size_spec "2.5KB").2.1 ⟨25, 1⟩ 1024 rfl rfl

/-- C4 counterexample: on `"-1K"` the code returns `0`, while the floor of
the real product `-1 * 1024` is `-1024`; the returned value is not the floor
of the product. -/
theorem parse_size_negative_counterexample :
    parse_size "-1K" = some 0 ∧ ⌊((-1 : ℚ) * 1024)⌋ = -1024 ∧ ¬((0 : ℤ) = -1024) := by
  refine ⟨by decide, ?_, by decide⟩
  norm_num

/-! ## Extension-matcher characterization (C8) -/

/-- `Char.toLower` maps only `'.'` to `'.'`. -/
theorem toLower_eq_dot {c : Char} (h : Char.toLower c = '.') : c = '.' := by
  unfold Char.toLower at h
  dsimp only at h
  by_cases hr : c.toNat ≥ 65 ∧ c.toNat ≤ 90
  · rw [if_pos hr] at h
    exfalso
    have hvalid : (Char.toNat c + 32).isValidChar := Or.inl (by omega)
    rw [Char.ofNat, dif_pos hvalid] at h
    have h1 : Char.toNat (Char.ofNatAux (Char.toNat c + 32) hvalid) =
        Char.toNat c + 32 := rfl
    have hv := congrArg Char.toNat h
    rw [h1] at hv
    have h2 : Char.toNat '.' = 46 := rfl
    omega
  · rwa [if_neg hr] at h

/-- After `trim_start_matches('.')` the string has no leading dot. -/
theorem startsWithDot_stripLeadingDots (s : String) :
    startsWithDot (stripLeadingDots s) = false := by
  unfold startsWithDot stripLeadingDots
  cases hl : s.data.dropWhile (· == '.') with
  | nil => simp [hl]
  | cons c r =>
    have h := List.head?_dropWhile_not (fun c => c == '.') s.data
    rw [hl] at h
    simpa [hl] using h

/-- Lower-casing does not create a leading dot. -/
theorem startsWithDot_rustToLower (s : String) (h : startsWithDot s = false) :
    startsWithDot (rustToLower s) = false := by
  unfold startsWithDot rustToLower at *
  cases hd : s.data with
  | nil => simp [hd]
  | cons c r =>
    rw [hd] at h
    simp only [List.map_cons]
    simp only [beq_eq_false_iff_ne] at h ⊢
    intro hc
    exact h (toLower_eq_dot hc)

/-- On a string with no leading dot, `trim_start_matches('.')` is the identity. -/
theorem stripLeadingDots_eq_self {s : String} (h : startsWithDot s = false) :
    stripLeadingDots s = s := by
  unfold startsWithDot at h
  unfold stripLeadingDots
  cases hd : s.data with
  | nil =>
    simp only [List.dropWhile_nil]
    exact (congrArg String.mk hd).symm
  | cons c r =>
    rw [hd] at h
    have h' : (c == '.') = false := h
    rw [List.dropWhile_cons_of_neg (by simpa using h')]
    exact (congrArg String.mk hd).symm

/-- C8 counterexample: for the raw extension `"..rs"` the code normalizes to
`"rs"` (all leading dots stripped) and accepts `"x.rs"`, while normalizing
by stripping a single leading dot gives `".rs"`, whose `"." + ext` suffix
test rejects `"x.rs"`. -/
theorem ext_strip_counterexample :
    normalizeExt "..rs" = "rs" ∧
    rustToLower (stripOneLeadingDot (rustTrim "..rs")) = ".rs" ∧
    matches_extension "x.rs" [normalizeExt "..rs"] = true ∧
    endsWithStr "x.rs" ("." ++ rustToLower (stripOneLeadingDot (rustTrim "..rs"))) = false := by
  refine ⟨by decide, by decide, by decide, by decide⟩

/-- C8 (amended): `from_cli` normalizes each comma-separated extension once
by trimming whitespace, stripping **all** leading dots, and lower-casing;
a normalized extension never starts with a dot; the empty extension list
matches every filename; and on dot-free extension lists a filename matches
iff it ends with `"." + ext` for some listed `ext` (case-sensitively on the
filename side). -/
theorem matches_extension_spec (filename raw : String) :
    ((FilterConfig.from_cli { filter_ext := some raw }).map fun cfg => cfg.exts) =
      .ok (some ((rustSplit ',' raw).map normalizeExt)) ∧
    matches_extension filename [] = true ∧
    (∀ e, startsWithDot (normalizeExt e) = false) ∧
    (∀ exts : List String, exts ≠ [] → (∀ e ∈ exts, startsWithDot e = false) →
      (matches_extension filename exts = true ↔
        ∃ e ∈ exts, endsWithStr filename ("." ++ e) = true)) := by
  refine ⟨rfl, rfl, ?_, ?_⟩
  · intro e
    exact startsWithDot_rustToLower _ (startsWithDot_stripLeadingDots _)
  · intro exts hne hnd
    unfold matches_extension
    rw [if_neg (by simp [List.isEmpty_iff]; exact hne)]
    rw [List.any_eq_true]
    constructor
    · rintro ⟨e, he, hmatch⟩
      exact ⟨e, he, by rwa [stripLeadingDots_eq_self (hnd e he)] at hmatch⟩
    · rintro ⟨e, he, hmatch⟩
      exact ⟨e, he, by rwa [stripLeadingDots_eq_self (hnd e he)]⟩

/-- Witness for C8 on scenario 4: `lib.rs` matches the extension list `rs`. -/
theorem matches_extension_spec_witness :
    matches_extension "lib.rs" ["rs"] = true :=
  ((matches_extension_spec "lib.rs" "rs").2.2.2 ["rs"] (by decide) (by decide)).mpr
    ⟨"rs", by decide, by decide⟩

/-- Witness for C5: with `min_size = max_size = 2048` and no other filter,
a 2048-byte record passes the chain. -/
theorem passes_filters_spec_witness :
    passes_filters
      { name := "a.txt", e_type := FileType.File, len_bytes := 2048,
        human_size := "2.0 KB", modified := "", permissions := "rw-r--r--",
        owner := "u", group := "g" }
      { exts := none, name_pattern := none,
        min_size := some 2048, max_size := some 2048 } = true :=
  ((passes_filters_spec
      { name := "a.txt", e_type := FileType.File, len_bytes := 2048,
        human_size := "2.0 KB", modified := "", permissions := "rw-r--r--",
        owner := "u", group := "g" }
      { exts := none, name_pattern := none,
        min_size := some 2048, max_size := some 2048 }).2 2048 rfl rfl).mpr
    (by
      refine ⟨?_, ?_, rfl⟩
      · intro e h
        exact nomatch h
      · intro p h
        exact nomatch h)
